import Mathlib

/-!
Shallow embedding of the SR&ED time-logger core
(`src/sred-time-system/scripts/sred_logger.py`): commit classification,
session construction via a single-pass state machine, and gap-protected
duration accounting.  Timestamps are modelled as rational seconds since
an arbitrary epoch (Python `datetime` subtraction composed with
`.total_seconds()` is subtraction of such instants); Python `float`
arithmetic on durations is modelled by exact rational arithmetic, and
`round(x, 2)` by rounding to the nearest multiple of 1/100.
-/

namespace SredLogger

/-- SR&ED commit tags that indicate billable work (module constant
`SRED_TAGS`), in source order. -/
def SRED_TAGS : List String := ["exp:", "obs:", "test:", "fail:", "succeed:", "pivot:", "stop:"]

/-- Gap protection threshold (module constant `MAX_GAP_HOURS`). -/
def MAX_GAP_HOURS : ℚ := 4

/-- Credit substituted for an over-threshold gap (module constant
`MAX_GAP_CREDIT`). -/
def MAX_GAP_CREDIT : ℚ := 1

/-- A single git commit with SR&ED metadata (dataclass `Commit`). -/
structure Commit where
  hash : String
  timestamp : ℚ
  message : String
  tag : String
deriving DecidableEq, Repr

/-- Property `Commit.is_session_start`: `self.tag in ['exp:']`. -/
def Commit.is_session_start (c : Commit) : Bool :=
  (["exp:"] : List String).contains c.tag

/-- Property `Commit.is_session_end`:
`self.tag in ['succeed:', 'pivot:', 'stop:', 'fail:']`. -/
def Commit.is_session_end (c : Commit) : Bool :=
  (["succeed:", "pivot:", "stop:", "fail:"] : List String).contains c.tag

/-- A single SR&ED work session (dataclass `Session`). -/
structure Session where
  session_id : String
  start_commit : Commit
  end_commit : Option Commit := none
  intermediate_commits : List Commit := []
deriving DecidableEq, Repr

/-- Property `Session.is_complete`: `self.end_commit is not None`. -/
def Session.is_complete (s : Session) : Bool :=
  s.end_commit.isSome

/-- Python list `sort` keyed on `c.timestamp` (a stable sort; Lean's
`List.mergeSort` is likewise stable). -/
def sortByTime (l : List Commit) : List Commit :=
  l.mergeSort (fun a b => decide (a.timestamp ≤ b.timestamp))

/-- Consecutive timestamp gaps in hours:
`(all_commits[i].timestamp - all_commits[i-1].timestamp).total_seconds() / 3600`
for `i = 1 .. len - 1`. -/
def hourGaps : List Commit → List ℚ
  | a :: b :: rest => (b.timestamp - a.timestamp) / 3600 :: hourGaps (b :: rest)
  | _ => []

/-- The gap protection rule applied to one gap:
`if gap > MAX_GAP_HOURS: credited = MAX_GAP_CREDIT else: credited = gap`. -/
def creditGap (gap : ℚ) : ℚ :=
  if gap > MAX_GAP_HOURS then MAX_GAP_CREDIT else gap

/-- Python `round(x, 2)`, modelled as rounding to the nearest multiple of
1/100 (the model resolves exact half-way ties upward; the claims under
study do not depend on the tie direction). -/
def round2 (q : ℚ) : ℚ :=
  ((⌊q * 100 + 1 / 2⌋ : ℤ) : ℚ) / 100

/-- Method `Session.calculate_duration`: returns 0.0 when the session is
not complete; otherwise sorts start + intermediates + end by timestamp,
credits each consecutive gap under the gap-protection rule, sums, and
rounds to 2 decimal places. -/
def Session.calculate_duration (s : Session) : ℚ :=
  match s.end_commit with
  | none => 0
  | some e =>
    let all_commits := sortByTime (s.start_commit :: (s.intermediate_commits ++ [e]))
    round2 (((hourGaps all_commits).map creditGap).sum)

/-- A match of the regular expression `EXP-\d+` anchored at the head of
the character list: the literal characters `EXP-` followed by a greedy
nonempty run of digits. -/
def expMatchAt (cs : List Char) : Option String :=
  match cs with
  | a :: b :: c :: d :: rest =>
    if a = 'E' ∧ b = 'X' ∧ c = 'P' ∧ d = '-' then
      let ds := rest.takeWhile (fun ch => ch.isDigit)
      if ds.isEmpty then none else some (String.mk ('E' :: 'X' :: 'P' :: '-' :: ds))
    else none
  | _ => none

/-- Python `re.search(r'EXP-\d+', msg)`: the match at the leftmost
starting position admitting one, scanning left to right. -/
def searchExp : List Char → Option String
  | [] => none
  | c :: rest =>
    match expMatchAt (c :: rest) with
    | some m => some m
    | none => searchExp rest

/-- Property `Session.hypothesis_id`: first `EXP-\d+` match in the start
commit message, or `"UNKNOWN"` when there is none. -/
def Session.hypothesis_id (s : Session) : String :=
  (searchExp s.start_commit.message.data).getD "UNKNOWN"

/-- Python `message.lower().startswith(t)` for an ASCII tag `t`,
modelled character-wise (`Char.toLower` lower-cases exactly the ASCII
letters, which agrees with `str.lower` on the tag alphabet). -/
def lowerStarts (msg t : String) : Bool :=
  decide (t.data <+: msg.data.map Char.toLower)

/-- The tag-detection loop of `get_sred_commits`: the first tag of
`SRED_TAGS` that the lower-cased message starts with, if any. -/
def classify (message : String) : Option String :=
  SRED_TAGS.find? (fun t => lowerStarts message t)

/-- A raw record parsed from one `git log` line, before tag
classification: `commit_hash`, timestamp, message. -/
structure RawCommit where
  hash : String
  timestamp : ℚ
  message : String
deriving DecidableEq, Repr

/-- Core of `get_sred_commits` after line parsing: keep exactly the
records whose message carries a recognized tag, build `Commit` values
(hash truncated to 8 characters), and sort oldest first. -/
def get_sred_commits (raws : List RawCommit) : List Commit :=
  sortByTime (raws.filterMap (fun r =>
    (classify r.message).map (fun t => ⟨r.hash.take 8, r.timestamp, r.message, t⟩)))

/-- Semantic role of a commit, as the session builder's branch structure
reads it off `is_session_start` / `is_session_end`. -/
inductive Role where
  | sessionStart
  | intermediate
  | sessionEnd
  | notApplicable
deriving DecidableEq, Repr

/-- Role of an already-classified commit: the branch taken by
`build_sessions` on it. -/
def Commit.role (c : Commit) : Role :=
  if c.is_session_start then Role.sessionStart
  else if c.is_session_end then Role.sessionEnd
  else Role.intermediate

/-- Role of a raw message: `notApplicable` when no tag matches (the
record never reaches the session builder), otherwise the role of the
classified commit. -/
def roleOf (message : String) : Role :=
  match classify message with
  | none => Role.notApplicable
  | some t => Commit.role ⟨"", 0, message, t⟩

/-- Decimal rendering of a natural number (Python `"%d"`), via the
little-endian digit list `Nat.digits 10`. -/
def natStr (n : ℕ) : String :=
  if n = 0 then "0" else String.mk (((Nat.digits 10 n).reverse).map Nat.digitChar)

/-- Python format `f"{n:03d}"`: decimal rendering left-padded with
zeros to width at least 3. -/
def pad3 (n : ℕ) : String :=
  let s := natStr n
  if s.length < 3 then String.mk (List.replicate (3 - s.length) '0') ++ s else s

/-- Session identifier `f"SESSION-{session_counter:03d}"`. -/
def sessionName (n : ℕ) : String :=
  "SESSION-" ++ pad3 n

/-- State of the single-pass loop in `build_sessions`: sessions emitted
so far (`sessions`), the open session if any (`current_session`), and
the next identifier number (`session_counter`). -/
structure BuildState where
  sessions : List Session
  current : Option Session
  counter : ℕ
deriving DecidableEq, Repr

/-- Loop state before the first commit: `sessions = []`,
`current_session = None`, `session_counter = 1`. -/
def initialState : BuildState :=
  ⟨[], none, 1⟩

/-- One iteration of the `for commit in commits` loop of
`build_sessions`, transcribed branch by branch. -/
def step (st : BuildState) (commit : Commit) : BuildState :=
  if commit.is_session_start then
    let flushed :=
      match st.current with
      | some cur => if cur.is_complete then st.sessions else st.sessions ++ [cur]
      | none => st.sessions
    { sessions := flushed
      current := some { session_id := sessionName st.counter, start_commit := commit }
      counter := st.counter + 1 }
  else if commit.is_session_end then
    match st.current with
    | some cur =>
      if cur.is_complete then
        { st with
          sessions := st.sessions ++
            [{ session_id := sessionName st.counter, start_commit := commit,
               end_commit := some commit }]
          counter := st.counter + 1 }
      else
        { sessions := st.sessions ++ [{ cur with end_commit := some commit }]
          current := none
          counter := st.counter }
    | none =>
      { st with
        sessions := st.sessions ++
          [{ session_id := sessionName st.counter, start_commit := commit,
             end_commit := some commit }]
        counter := st.counter + 1 }
  else
    match st.current with
    | some cur =>
      { st with current := some { cur with intermediate_commits := cur.intermediate_commits ++ [commit] } }
    | none => st

/-- Function `build_sessions`: fold the loop body over the commit list,
then flush any unclosed session. -/
def build_sessions (commits : List Commit) : List Session :=
  let st := commits.foldl step initialState
  match st.current with
  | some cur => st.sessions ++ [cur]
  | none => st.sessions

/-- Total of `generate_time_log` (and of the `--json` path):
`sum(s.calculate_duration() for s in sessions if s.is_complete)`. -/
def total_hours (sessions : List Session) : ℚ :=
  ((sessions.filter (fun s => s.is_complete)).map Session.calculate_duration).sum

/-- Reference duration written from the specification's words, for the
refinement claim C1: collect the start commit, all intermediate commits,
and the end commit; sort them ascending by timestamp; for each
consecutive pair compute the gap in hours and credit the raw gap if it
is at most 4.0 hours, but exactly 1.0 hour if the gap is strictly
greater than 4.0 hours; sum all credited gaps and round to 2 decimal
places. -/
def specDuration (startC : Commit) (mids : List Commit) (endC : Commit) : ℚ :=
  let collected := startC :: (mids ++ [endC])
  let sorted := collected.mergeSort (fun a b => decide (a.timestamp ≤ b.timestamp))
  let gaps := List.zipWith (fun a b => (b.timestamp - a.timestamp) / 3600) sorted sorted.tail
  let creditedGaps := gaps.map (fun g => if g ≤ 4 then g else (1 : ℚ))
  round2 creditedGaps.sum

/-- Sessions the loop state accounts for: the emitted ones followed by
the still-open one, if any. -/
def allSessions (st : BuildState) : List Session :=
  st.sessions ++ st.current.toList

/-- Declarative reading of the pattern `EXP-\d+` occurring somewhere in
a message: the characters `EXP-` followed by at least one digit. -/
def hasExpRef (m : String) : Prop :=
  ∃ pre ds post : List Char, ds ≠ [] ∧ (∀ c ∈ ds, c.isDigit = true) ∧
    m.data = pre ++ ('E' :: 'X' :: 'P' :: '-' :: (ds ++ post))

/-- Numeric value of a decimal digit character. -/
def digitVal (c : Char) : ℕ :=
  c.toNat - '0'.toNat

/-- Value of a big-endian decimal digit string (left inverse used to
show that zero-padded decimal rendering is injective). -/
def parseDec (cs : List Char) : ℕ :=
  cs.foldl (fun acc c => 10 * acc + digitVal c) 0

/-- Concrete start commit: `exp:` at 09:00 (32400 s). -/
def cStartA : Commit :=
  ⟨"1111aaaa", 32400, "exp: EXP-001 try caching layer", "exp:"⟩

/-- Concrete start commit: `exp:` at 09:30 (34200 s). -/
def cStartB : Commit :=
  ⟨"2222bbbb", 34200, "exp: try sharding instead", "exp:"⟩

/-- Concrete intermediate commit: `obs:` at 10:00 (36000 s). -/
def cObs : Commit :=
  ⟨"3333cccc", 36000, "obs: latency dropped", "obs:"⟩

/-- Concrete end commit: `stop:` at 14:00 (50400 s). -/
def cEnd : Commit :=
  ⟨"4444dddd", 50400, "stop: out of time", "stop:"⟩

/-- Concrete end commit: `succeed:` at 11:00 (39600 s). -/
def cEnd2 : Commit :=
  ⟨"5555eeee", 39600, "succeed: cache hit rate up", "succeed:"⟩

/-- Loop invariant of `build_sessions`: the counter started at 1 and
only grew; the identifiers of all accounted sessions (emitted ones,
then the open one) are exactly `SESSION-001 .. SESSION-(counter-1)` in
creation order; and the open session, when present, has no end commit
yet. -/
def BuilderInv (st : BuildState) : Prop :=
  1 ≤ st.counter ∧
  (allSessions st).map Session.session_id =
    (List.range' 1 (st.counter - 1)).map sessionName ∧
  ∀ cur, st.current = some cur → cur.end_commit = none

theorem sessionName_one : sessionName 1 = "SESSION-001" := by
  norm_num [sessionName, pad3, natStr]; decide

theorem sessionName_two : sessionName 2 = "SESSION-002" := by
  norm_num [sessionName, pad3, natStr]; decide

theorem hourGaps_eq_zipWith (l : List Commit) :
    hourGaps l =
      List.zipWith (fun a b => (b.timestamp - a.timestamp) / 3600) l l.tail := by
  induction l with
  | nil => rfl
  | cons a t ih =>
    cases t with
    | nil => rfl
    | cons b r =>
      simp only [hourGaps, List.tail_cons, List.zipWith_cons_cons, List.cons.injEq,
        true_and]
      simpa using ih

theorem creditGap_eq_spec : creditGap = fun g : ℚ => if g ≤ 4 then g else 1 := by
  funext g
  rcases le_or_lt g 4 with hg | hg
  · simp [creditGap, MAX_GAP_HOURS, MAX_GAP_CREDIT, not_lt.mpr hg, hg]
  · simp [creditGap, MAX_GAP_HOURS, MAX_GAP_CREDIT, hg, not_le.mpr hg]

/-- C1: for every Complete session (one with an end commit), the
computed duration equals the reference definition from the spec:
collect start, intermediates and end, sort ascending by timestamp,
credit each consecutive gap (raw if at most 4.0 hours, exactly 1.0 if
strictly greater), sum, and round to 2 decimal places. -/
theorem C1_duration_matches_reference (s : Session) (e : Commit)
    (h : s.end_commit = some e) :
    s.calculate_duration = specDuration s.start_commit s.intermediate_commits e := by
  unfold Session.calculate_duration specDuration sortByTime
  rw [h]
  simp only [hourGaps_eq_zipWith, creditGap_eq_spec]

/-- Witness for C1: a concrete complete session with one intermediate
commit. -/
theorem C1_witness :
    Session.calculate_duration
        { session_id := "SESSION-001", start_commit := cStartA, end_commit := some cEnd2,
          intermediate_commits := [cObs] } =
      specDuration cStartA [cObs] cEnd2 :=
  C1_duration_matches_reference _ cEnd2 rfl

/-- C2: the billable total is the sum of `calculate_duration` over
exactly the Complete sessions; an Incomplete session has duration 0.0
(so the total also equals the sum over all sessions) and is never
estimated. -/
theorem C2_billable_total :
    (∀ s : Session, s.is_complete = false → s.calculate_duration = 0) ∧
    (∀ commits : List Commit,
      total_hours (build_sessions commits) =
        (((build_sessions commits).filter (fun s => s.is_complete)).map
          Session.calculate_duration).sum ∧
      total_hours (build_sessions commits) =
        ((build_sessions commits).map Session.calculate_duration).sum) := by
  have hzero : ∀ s : Session, s.is_complete = false → s.calculate_duration = 0 := by
    intro s hs
    unfold Session.calculate_duration
    cases h : s.end_commit with
    | none => rfl
    | some e => rw [Session.is_complete, h] at hs; simp at hs
  have key : ∀ ss : List Session,
      total_hours ss = (ss.map Session.calculate_duration).sum := by
    intro ss
    induction ss with
    | nil => rfl
    | cons a t ih =>
      cases ha : a.is_complete with
      | true => simp [total_hours, List.filter_cons, ha] at ih ⊢; rw [ih]
      | false => simp [total_hours, List.filter_cons, ha, hzero a ha] at ih ⊢; rw [ih]
  exact ⟨hzero, fun commits => ⟨rfl, key _⟩⟩

/-- Witness for C2: a lone start commit yields one Incomplete session
of duration 0, and the billable total agrees with the all-sessions
sum. -/
theorem C2_witness :
    Session.calculate_duration { session_id := "SESSION-001", start_commit := cStartA } = 0 ∧
    total_hours (build_sessions [cStartA]) =
      ((build_sessions [cStartA]).map Session.calculate_duration).sum :=
  ⟨C2_billable_total.1 _ rfl, (C2_billable_total.2 [cStartA]).2⟩

theorem start_end_exclusive (c : Commit) (h : c.is_session_end = true) :
    c.is_session_start = false := by
  simp only [Commit.is_session_end, List.contains_cons, List.contains_nil,
    Bool.or_eq_true, beq_iff_eq, Bool.or_false] at h
  rcases h with h | h | h | h <;>
    simp [Commit.is_session_start, h]

theorem orphan_duration_zero (sid : String) (c : Commit) :
    Session.calculate_duration
      { session_id := sid, start_commit := c, end_commit := some c } = 0 := by
  have hsort : sortByTime (c :: ([] ++ [c])) = [c, c] := by
    simp only [List.nil_append]
    exact List.mergeSort_of_sorted (by simp)
  simp only [Session.calculate_duration, hsort, hourGaps, sub_self, zero_div]
  norm_num [creditGap, MAX_GAP_HOURS, round2]

/-- C3: consuming a start commit while a session is open emits the open
session exactly as accumulated (Incomplete, no end commit attached),
opens a new session on the new start commit (the machine stays Open),
and advances the counter; concretely, the stream
`[exp@09:00, exp@09:30]` yields a first session emitted Incomplete with
duration 0.0 and a second session starting at 09:30. -/
theorem C3_supersession :
    (∀ (st : BuildState) (cur : Session) (c : Commit),
      st.current = some cur → cur.end_commit = none → c.is_session_start = true →
        (step st c).sessions = st.sessions ++ [cur] ∧
        (step st c).current = some { session_id := sessionName st.counter, start_commit := c } ∧
        (step st c).counter = st.counter + 1) ∧
    (build_sessions [cStartA, cStartB] =
        [{ session_id := "SESSION-001", start_commit := cStartA },
         { session_id := "SESSION-002", start_commit := cStartB }] ∧
      Session.calculate_duration { session_id := "SESSION-001", start_commit := cStartA } = 0) := by
  constructor
  · intro st cur c h1 h2 h3
    refine ⟨?_, ?_, ?_⟩ <;> simp [step, h1, h3, Session.is_complete, h2]
  · constructor
    · simp +decide [build_sessions, step, initialState, cStartA, cStartB,
        Commit.is_session_start, Commit.is_session_end, Session.is_complete,
        sessionName_one, sessionName_two]
    · rfl

/-- Witness for C3: the supersession transition applied at a concrete
open state and a concrete second start commit. -/
theorem C3_witness :
    (step ⟨[], some { session_id := "SESSION-001", start_commit := cStartA }, 2⟩ cStartB).sessions =
        [] ++ [{ session_id := "SESSION-001", start_commit := cStartA }] ∧
    (step ⟨[], some { session_id := "SESSION-001", start_commit := cStartA }, 2⟩ cStartB).current =
        some { session_id := sessionName 2, start_commit := cStartB } ∧
    (step ⟨[], some { session_id := "SESSION-001", start_commit := cStartA }, 2⟩ cStartB).counter =
        2 + 1 :=
  C3_supersession.1 _ _ _ rfl rfl rfl

/-- C4: consuming an end commit while no session is open synthesizes a
single Complete session whose start and end commit are both that commit
with zero intermediates, leaves the machine Idle, advances the counter,
and that session's computed duration is exactly 0.0. -/
theorem C4_orphan_end (st : BuildState) (c : Commit)
    (hidle : st.current = none) (hend : c.is_session_end = true) :
    (step st c).sessions = st.sessions ++
        [{ session_id := sessionName st.counter, start_commit := c, end_commit := some c }] ∧
    (step st c).current = none ∧
    (step st c).counter = st.counter + 1 ∧
    Session.calculate_duration
        { session_id := sessionName st.counter, start_commit := c, end_commit := some c } = 0 := by
  have hns : c.is_session_start = false := start_end_exclusive c hend
  refine ⟨?_, ?_, ?_, orphan_duration_zero _ c⟩ <;> simp [step, hns, hend, hidle]

/-- Witness for C4: the orphan-end transition applied at the initial
(Idle) state and a concrete `stop:` commit. -/
theorem C4_witness :
    (step initialState cEnd).sessions = initialState.sessions ++
        [{ session_id := sessionName initialState.counter, start_commit := cEnd,
           end_commit := some cEnd }] ∧
    (step initialState cEnd).current = none ∧
    (step initialState cEnd).counter = initialState.counter + 1 ∧
    Session.calculate_duration
        { session_id := sessionName initialState.counter, start_commit := cEnd,
          end_commit := some cEnd } = 0 :=
  C4_orphan_end initialState cEnd rfl rfl

/-- C6: an intermediate commit consumed while no session is open is
dropped without effect — the emitted session sequence for a stream with
such a commit inserted at an Idle point equals the one for the stream
without it, and the machine state is unchanged. -/
theorem C6_idle_intermediate_dropped (pre post : List Commit) (c : Commit)
    (hidle : (pre.foldl step initialState).current = none)
    (hs : c.is_session_start = false) (he : c.is_session_end = false) :
    build_sessions (pre ++ c :: post) = build_sessions (pre ++ post) ∧
    (pre ++ c :: post).foldl step initialState = (pre ++ post).foldl step initialState := by
  have hstep : step (pre.foldl step initialState) c = pre.foldl step initialState := by
    simp [step, hs, he, hidle]
  have hfold : (pre ++ c :: post).foldl step initialState =
      (pre ++ post).foldl step initialState := by
    rw [List.foldl_append, List.foldl_append, List.foldl_cons, hstep]
  exact ⟨by unfold build_sessions; rw [hfold], hfold⟩

/-- Witness for C6: an `obs:` commit at the very start of the stream
(the initial state is Idle) is invisible to the builder. -/
theorem C6_witness :
    build_sessions ([] ++ cObs :: []) = build_sessions ([] ++ []) ∧
    ([] ++ cObs :: []).foldl step initialState = ([] ++ []).foldl step initialState :=
  C6_idle_intermediate_dropped [] [] cObs rfl rfl rfl

theorem lowerStarts_false_of (msg t1 t2 : String) (h1 : lowerStarts msg t1 = true)
    (h12 : ¬ t1.data <+: t2.data) (h21 : ¬ t2.data <+: t1.data) :
    lowerStarts msg t2 = false := by
  rw [lowerStarts, decide_eq_false_iff_not]
  intro h2
  rw [lowerStarts, decide_eq_true_eq] at h1
  rcases List.prefix_or_prefix_of_prefix h1 h2 with h | h
  · exact h12 h
  · exact h21 h

/-- C5: the classifier is a total pure function of the message — by
case-insensitive prefix match, `exp:` gives role start, `obs:`/`test:`
give role intermediate, `succeed:`/`pivot:`/`stop:`/`fail:` give role
end, anything else gives role none and the record is excluded from the
Session Builder's input entirely. -/
theorem C5_classifier :
    (∀ msg : String,
      (lowerStarts msg "exp:" = true → roleOf msg = Role.sessionStart) ∧
      ((lowerStarts msg "obs:" = true ∨ lowerStarts msg "test:" = true) →
        roleOf msg = Role.intermediate) ∧
      ((lowerStarts msg "succeed:" = true ∨ lowerStarts msg "pivot:" = true ∨
          lowerStarts msg "stop:" = true ∨ lowerStarts msg "fail:" = true) →
        roleOf msg = Role.sessionEnd) ∧
      ((∀ t ∈ SRED_TAGS, lowerStarts msg t = false) → roleOf msg = Role.notApplicable)) ∧
    (∀ raws : List RawCommit,
      get_sred_commits raws =
        get_sred_commits (raws.filter
          (fun r => decide (roleOf r.message ≠ Role.notApplicable)))) := by
  constructor
  · intro msg
    refine ⟨?_, ?_, ?_, ?_⟩
    · intro h
      simp +decide [roleOf, classify, SRED_TAGS, List.find?, h, Commit.role,
        Commit.is_session_start]
    · rintro (h | h)
      · have e1 : lowerStarts msg "exp:" = false :=
          lowerStarts_false_of msg "obs:" "exp:" h (by decide) (by decide)
        simp +decide [roleOf, classify, SRED_TAGS, List.find?, h, e1, Commit.role,
          Commit.is_session_start, Commit.is_session_end]
      · have e1 : lowerStarts msg "exp:" = false :=
          lowerStarts_false_of msg "test:" "exp:" h (by decide) (by decide)
        have e2 : lowerStarts msg "obs:" = false :=
          lowerStarts_false_of msg "test:" "obs:" h (by decide) (by decide)
        simp +decide [roleOf, classify, SRED_TAGS, List.find?, h, e1, e2, Commit.role,
          Commit.is_session_start, Commit.is_session_end]
    · rintro (h | h | h | h)
      · have e1 : lowerStarts msg "exp:" = false :=
          lowerStarts_false_of msg "succeed:" "exp:" h (by decide) (by decide)
        have e2 : lowerStarts msg "obs:" = false :=
          lowerStarts_false_of msg "succeed:" "obs:" h (by decide) (by decide)
        have e3 : lowerStarts msg "test:" = false :=
          lowerStarts_false_of msg "succeed:" "test:" h (by decide) (by decide)
        have e4 : lowerStarts msg "fail:" = false :=
          lowerStarts_false_of msg "succeed:" "fail:" h (by decide) (by decide)
        simp +decide [roleOf, classify, SRED_TAGS, List.find?, h, e1, e2, e3, e4,
          Commit.role, Commit.is_session_start, Commit.is_session_end]
      · have e1 : lowerStarts msg "exp:" = false :=
          lowerStarts_false_of msg "pivot:" "exp:" h (by decide) (by decide)
        have e2 : lowerStarts msg "obs:" = false :=
          lowerStarts_false_of msg "pivot:" "obs:" h (by decide) (by decide)
        have e3 : lowerStarts msg "test:" = false :=
          lowerStarts_false_of msg "pivot:" "test:" h (by decide) (by decide)
        have e4 : lowerStarts msg "fail:" = false :=
          lowerStarts_false_of msg "pivot:" "fail:" h (by decide) (by decide)
        have e5 : lowerStarts msg "succeed:" = false :=
          lowerStarts_false_of msg "pivot:" "succeed:" h (by decide) (by decide)
        simp +decide [roleOf, classify, SRED_TAGS, List.find?, h, e1, e2, e3, e4, e5,
          Commit.role, Commit.is_session_start, Commit.is_session_end]
      · have e1 : lowerStarts msg "exp:" = false :=
          lowerStarts_false_of msg "stop:" "exp:" h (by decide) (by decide)
        have e2 : lowerStarts msg "obs:" = false :=
          lowerStarts_false_of msg "stop:" "obs:" h (by decide) (by decide)
        have e3 : lowerStarts msg "test:" = false :=
          lowerStarts_false_of msg "stop:" "test:" h (by decide) (by decide)
        have e4 : lowerStarts msg "fail:" = false :=
          lowerStarts_false_of msg "stop:" "fail:" h (by decide) (by decide)
        have e5 : lowerStarts msg "succeed:" = false :=
          lowerStarts_false_of msg "stop:" "succeed:" h (by decide) (by decide)
        have e6 : lowerStarts msg "pivot:" = false :=
          lowerStarts_false_of msg "stop:" "pivot:" h (by decide) (by decide)
        simp +decide [roleOf, classify, SRED_TAGS, List.find?, h, e1, e2, e3, e4, e5, e6,
          Commit.role, Commit.is_session_start, Commit.is_session_end]
      · have e1 : lowerStarts msg "exp:" = false :=
          lowerStarts_false_of msg "fail:" "exp:" h (by decide) (by decide)
        have e2 : lowerStarts msg "obs:" = false :=
          lowerStarts_false_of msg "fail:" "obs:" h (by decide) (by decide)
        have e3 : lowerStarts msg "test:" = false :=
          lowerStarts_false_of msg "fail:" "test:" h (by decide) (by decide)
        simp +decide [roleOf, classify, SRED_TAGS, List.find?, h, e1, e2, e3,
          Commit.role, Commit.is_session_start, Commit.is_session_end]
    · intro h
      have hc : classify msg = none :=
        List.find?_eq_none.mpr (by intro x hx; simp [h x hx])
      simp [roleOf, hc]
  · intro raws
    unfold get_sred_commits
    congr 1
    induction raws with
    | nil => rfl
    | cons r rest ih =>
      by_cases hr : classify r.message = none
      · have hrole : roleOf r.message = Role.notApplicable := by simp [roleOf, hr]
        simp [List.filterMap_cons, List.filter_cons, hr, hrole, ih]
      · obtain ⟨t, ht⟩ := Option.ne_none_iff_exists'.mp hr
        have hrole : roleOf r.message ≠ Role.notApplicable := by
          simp only [roleOf, ht, Commit.role]
          split_ifs <;> simp
        simp [List.filterMap_cons, List.filter_cons, ht, hrole, ih]

/-- Witness for C5: one concrete message per role, including
case-insensitive matches. -/
theorem C5_witness :
    roleOf "EXP: Shouted Hypothesis" = Role.sessionStart ∧
    roleOf "obs: latency dropped" = Role.intermediate ∧
    roleOf "FAIL: approach abandoned" = Role.sessionEnd ∧
    roleOf "chore: bump deps" = Role.notApplicable :=
  ⟨(C5_classifier.1 _).1 (by decide),
   (C5_classifier.1 _).2.1 (Or.inl (by decide)),
   (C5_classifier.1 _).2.2.1 (Or.inr (Or.inr (Or.inr (by decide)))),
   (C5_classifier.1 _).2.2.2 (by decide)⟩

theorem sortByTime_chain (l : List Commit) :
    List.Chain' (fun a b : Commit => a.timestamp ≤ b.timestamp) (sortByTime l) := by
  apply List.Pairwise.chain'
  have hp : List.Pairwise
      (fun a b : Commit => decide (a.timestamp ≤ b.timestamp) = true) (sortByTime l) := by
    apply List.sorted_mergeSort
    · intro a b c hab hbc
      simp only [decide_eq_true_eq] at hab hbc ⊢
      exact le_trans hab hbc
    · intro a b
      simp only [Bool.or_eq_true, decide_eq_true_eq]
      exact le_total _ _
  exact hp.imp (fun h => of_decide_eq_true h)

theorem hourGaps_nonneg : ∀ l : List Commit,
    List.Chain' (fun a b : Commit => a.timestamp ≤ b.timestamp) l →
    ∀ g ∈ hourGaps l, 0 ≤ g
  | [], _ => by simp [hourGaps]
  | [_], _ => by simp [hourGaps]
  | a :: b :: rest, h => by
    rw [List.chain'_cons] at h
    intro g hg
    simp only [hourGaps, List.mem_cons] at hg
    rcases hg with rfl | hg
    · exact div_nonneg (sub_nonneg.mpr h.1) (by norm_num)
    · exact hourGaps_nonneg (b :: rest) h.2 g hg

theorem creditGap_nonneg (g : ℚ) (hg : 0 ≤ g) : 0 ≤ creditGap g := by
  unfold creditGap MAX_GAP_CREDIT
  split_ifs
  · norm_num
  · exact hg

theorem creditGap_le (g : ℚ) : creditGap g ≤ MAX_GAP_HOURS := by
  unfold creditGap MAX_GAP_HOURS MAX_GAP_CREDIT
  split_ifs with h
  · norm_num
  · exact le_of_not_lt h

theorem round2_nonneg (q : ℚ) (h : 0 ≤ q) : 0 ≤ round2 q := by
  unfold round2
  have h1 : (0 : ℤ) ≤ ⌊q * 100 + 1 / 2⌋ := Int.le_floor.mpr (by push_cast; linarith)
  apply div_nonneg _ (by norm_num : (0:ℚ) ≤ 100)
  exact_mod_cast h1

theorem duration_nonneg (s : Session) : 0 ≤ s.calculate_duration := by
  cases he : s.end_commit with
  | none => simp [Session.calculate_duration, he]
  | some e =>
    simp only [Session.calculate_duration, he]
    apply round2_nonneg
    apply List.sum_nonneg
    intro x hx
    obtain ⟨g, hg, rfl⟩ := List.mem_map.mp hx
    exact creditGap_nonneg g (hourGaps_nonneg _ (sortByTime_chain _) g hg)

/-- C8: for every input commit sequence, of any length and in any
timestamp order, the total computed billable hours (the sum of
`calculate_duration` over the Complete sessions built from it) is
nonnegative. -/
theorem C8_total_nonneg (commits : List Commit) :
    0 ≤ total_hours (build_sessions commits) := by
  unfold total_hours
  apply List.sum_nonneg
  intro x hx
  obtain ⟨s, _, rfl⟩ := List.mem_map.mp hx
  exact duration_nonneg s

theorem hourGaps_length : ∀ l : List Commit, (hourGaps l).length = l.length - 1
  | [] => rfl
  | [_] => rfl
  | a :: b :: rest => by
    have ih := hourGaps_length (b :: rest)
    simp only [hourGaps, List.length_cons] at ih ⊢
    omega

theorem round2_le_int (q : ℚ) (m : ℤ) (h : q ≤ (m : ℚ)) : round2 q ≤ (m : ℚ) := by
  unfold round2
  have h1 : ⌊q * 100 + 1 / 2⌋ ≤ 100 * m := by
    have hle : q * 100 + 1 / 2 ≤ ((100 * m : ℤ) : ℚ) + 1 / 2 := by push_cast; linarith
    calc ⌊q * 100 + 1 / 2⌋ ≤ ⌊((100 * m : ℤ) : ℚ) + 1 / 2⌋ := Int.floor_mono hle
      _ = 100 * m + ⌊(1 / 2 : ℚ)⌋ := Int.floor_int_add _ _
      _ = 100 * m := by norm_num
  have h2 : ((⌊q * 100 + 1 / 2⌋ : ℤ) : ℚ) ≤ ((100 * m : ℤ) : ℚ) := by exact_mod_cast h1
  rw [div_le_iff₀ (by norm_num : (0:ℚ) < 100)]
  push_cast at h2 ⊢
  linarith

/-- C9: a Complete session with n commits in total (start plus
intermediates plus end, so n = intermediates + 2) has computed duration
at most 4.0 * (n - 1): every credited gap is at most 4.0, and rounding
to 2 decimal places cannot exceed this bound since the bound is a
multiple of 0.01. -/
theorem C9_duration_bound (s : Session) (e : Commit)
    (h : s.end_commit = some e) :
    (∀ g : ℚ, creditGap g ≤ MAX_GAP_HOURS) ∧
    s.calculate_duration ≤ 4 * (((s.intermediate_commits.length + 2 : ℕ) : ℚ) - 1) := by
  refine ⟨creditGap_le, ?_⟩
  have hlen : (hourGaps (sortByTime (s.start_commit :: (s.intermediate_commits ++ [e])))).length
      = s.intermediate_commits.length + 1 := by
    rw [hourGaps_length]
    unfold sortByTime
    rw [List.length_mergeSort]
    simp
  simp only [Session.calculate_duration, h]
  have hsum :
      ((hourGaps (sortByTime (s.start_commit :: (s.intermediate_commits ++ [e])))).map
        creditGap).sum ≤ ((s.intermediate_commits.length + 1 : ℕ) : ℚ) * 4 := by
    calc ((hourGaps (sortByTime (s.start_commit :: (s.intermediate_commits ++ [e])))).map
          creditGap).sum
        ≤ ((hourGaps (sortByTime (s.start_commit :: (s.intermediate_commits ++ [e])))).map
            creditGap).length • (4 : ℚ) := by
          apply List.sum_le_card_nsmul
          intro x hx
          obtain ⟨g, _, rfl⟩ := List.mem_map.mp hx
          simpa [MAX_GAP_HOURS] using creditGap_le g
      _ = ((s.intermediate_commits.length + 1 : ℕ) : ℚ) * 4 := by
          rw [List.length_map, hlen, nsmul_eq_mul]
  have hfin := round2_le_int _ (((s.intermediate_commits.length : ℤ) + 1) * 4)
    (by push_cast at hsum ⊢; linarith)
  push_cast at hfin ⊢
  linarith

/-- Witness for C9 at a concrete complete session with one intermediate
commit (n = 3, bound 8.0). -/
theorem C9_witness :
    (∀ g : ℚ, creditGap g ≤ MAX_GAP_HOURS) ∧
    Session.calculate_duration
        { session_id := "SESSION-001", start_commit := cStartA, end_commit := some cEnd2,
          intermediate_commits := [cObs] } ≤
      4 * (((([cObs] : List Commit).length + 2 : ℕ) : ℚ) - 1) :=
  C9_duration_bound _ cEnd2 rfl

theorem is_complete_false_iff (s : Session) :
    s.is_complete = false ↔ s.end_commit = none := by
  cases h : s.end_commit <;> simp [Session.is_complete, h]

theorem step_start_none (st : BuildState) (c : Commit)
    (hs : c.is_session_start = true) (hcur : st.current = none) :
    step st c = ⟨st.sessions,
      some { session_id := sessionName st.counter, start_commit := c }, st.counter + 1⟩ := by
  simp [step, hs, hcur]

theorem step_start_open (st : BuildState) (c : Commit) (cur : Session)
    (hs : c.is_session_start = true) (hcur : st.current = some cur)
    (he : cur.end_commit = none) :
    step st c = ⟨st.sessions ++ [cur],
      some { session_id := sessionName st.counter, start_commit := c }, st.counter + 1⟩ := by
  simp [step, hs, hcur, Session.is_complete, he]

theorem step_start_closed (st : BuildState) (c : Commit) (cur : Session)
    (hs : c.is_session_start = true) (hcur : st.current = some cur)
    (he : cur.is_complete = true) :
    step st c = ⟨st.sessions,
      some { session_id := sessionName st.counter, start_commit := c }, st.counter + 1⟩ := by
  simp [step, hs, hcur, he]

theorem step_end_close (st : BuildState) (c : Commit) (cur : Session)
    (hs : c.is_session_start = false) (hsE : c.is_session_end = true)
    (hcur : st.current = some cur) (he : cur.is_complete = false) :
    step st c = ⟨st.sessions ++ [{ cur with end_commit := some c }], none, st.counter⟩ := by
  simp [step, hs, hsE, hcur, he]

theorem step_end_orphan_idle (st : BuildState) (c : Commit)
    (hs : c.is_session_start = false) (hsE : c.is_session_end = true)
    (hcur : st.current = none) :
    step st c = ⟨st.sessions ++
      [{ session_id := sessionName st.counter, start_commit := c, end_commit := some c }],
      none, st.counter + 1⟩ := by
  simp [step, hs, hsE, hcur]

theorem step_end_orphan_closed (st : BuildState) (c : Commit) (cur : Session)
    (hs : c.is_session_start = false) (hsE : c.is_session_end = true)
    (hcur : st.current = some cur) (he : cur.is_complete = true) :
    step st c = ⟨st.sessions ++
      [{ session_id := sessionName st.counter, start_commit := c, end_commit := some c }],
      some cur, st.counter + 1⟩ := by
  simp [step, hs, hsE, hcur, he]

theorem step_mid_open (st : BuildState) (c : Commit) (cur : Session)
    (hs : c.is_session_start = false) (hsE : c.is_session_end = false)
    (hcur : st.current = some cur) :
    step st c = ⟨st.sessions,
      some { cur with intermediate_commits := cur.intermediate_commits ++ [c] },
      st.counter⟩ := by
  simp [step, hs, hsE, hcur]

theorem step_mid_idle (st : BuildState) (c : Commit)
    (hs : c.is_session_start = false) (hsE : c.is_session_end = false)
    (hcur : st.current = none) :
    step st c = st := by
  simp [step, hs, hsE, hcur]

theorem digitVal_digitChar (d : ℕ) (h : d < 10) :
    digitVal (Nat.digitChar d) = d := by
  interval_cases d <;> rfl

theorem parseDecFold : ∀ (L : List ℕ), (∀ d ∈ L, d < 10) →
    List.foldr (fun x y => 10 * y + digitVal x) 0 (L.map Nat.digitChar) = Nat.ofDigits 10 L
  | [], _ => by simp [Nat.ofDigits]
  | d :: L, h => by
    simp only [List.map_cons, List.foldr_cons, Nat.ofDigits_cons]
    rw [parseDecFold L (fun x hx => h x (List.mem_cons_of_mem _ hx)),
      digitVal_digitChar d (h d (List.mem_cons_self _ _))]
    ring

theorem parseDec_natStr (n : ℕ) : parseDec (natStr n).data = n := by
  unfold natStr
  split_ifs with h
  · subst h; rfl
  · show parseDec (((Nat.digits 10 n).reverse).map Nat.digitChar) = n
    unfold parseDec
    rw [List.map_reverse, List.foldl_reverse]
    exact (parseDecFold _ (fun d hd => Nat.digits_lt_base (by norm_num) hd)).trans
      (Nat.ofDigits_digits 10 n)

theorem parseDec_zeros (k : ℕ) (cs : List Char) :
    parseDec (List.replicate k '0' ++ cs) = parseDec cs := by
  induction k with
  | zero => simp
  | succ k ih =>
    unfold parseDec at ih ⊢
    simp only [List.replicate_succ, List.cons_append, List.foldl_cons]
    rw [show 10 * 0 + digitVal '0' = 0 from rfl]
    exact ih

theorem parseDec_pad3 (n : ℕ) : parseDec (pad3 n).data = n := by
  rw [show pad3 n = if (natStr n).length < 3 then
      String.mk (List.replicate (3 - (natStr n).length) '0') ++ natStr n
    else natStr n from rfl]
  split_ifs with h
  · rw [String.data_append]
    show parseDec (List.replicate (3 - (natStr n).length) '0' ++ (natStr n).data) = n
    rw [parseDec_zeros, parseDec_natStr]
  · exact parseDec_natStr n

theorem sessionName_inj : Function.Injective sessionName := by
  intro a b h
  have hd : ("SESSION-".data) ++ (pad3 a).data = ("SESSION-".data) ++ (pad3 b).data := by
    have hda := congrArg String.data h
    rwa [sessionName, sessionName, String.data_append, String.data_append] at hda
  have hp : (pad3 a).data = (pad3 b).data := List.append_cancel_left hd
  have hv := congrArg parseDec hp
  rwa [parseDec_pad3, parseDec_pad3] at hv

theorem builderInv_init : BuilderInv initialState := by
  refine ⟨le_refl 1, ?_, ?_⟩
  · simp [allSessions, initialState]
  · intro cur h
    simp [initialState] at h

theorem builderInv_step (st : BuildState) (c : Commit) (hinv : BuilderInv st) :
    BuilderInv (step st c) := by
  obtain ⟨h1, h2, h3⟩ := hinv
  by_cases hs : c.is_session_start = true
  · cases hcur : st.current with
    | none =>
      rw [step_start_none st c hs hcur]
      have h2' : st.sessions.map Session.session_id =
          (List.range' 1 (st.counter - 1)).map sessionName := by
        simpa [allSessions, hcur] using h2
      refine ⟨Nat.succ_le_succ (Nat.zero_le _), ?_, ?_⟩
      · have hstep : st.counter + 1 - 1 = (st.counter - 1) + 1 := by omega
        have harg : 1 + 1 * (st.counter - 1) = st.counter := by omega
        simp only [allSessions, Option.toList_some, List.map_append, h2']
        rw [hstep, List.range'_concat, List.map_append, harg]
        simp
      · intro cur hc
        exact (Option.some_inj.mp hc) ▸ rfl
    | some cur =>
      have hend := h3 cur hcur
      rw [step_start_open st c cur hs hcur hend]
      have h2' : (st.sessions ++ [cur]).map Session.session_id =
          (List.range' 1 (st.counter - 1)).map sessionName := by
        simpa [allSessions, hcur] using h2
      refine ⟨Nat.succ_le_succ (Nat.zero_le _), ?_, fun cur' hc => (Option.some_inj.mp hc) ▸ rfl⟩
      · have hstep : st.counter + 1 - 1 = (st.counter - 1) + 1 := by omega
        have harg : 1 + 1 * (st.counter - 1) = st.counter := by omega
        simp only [allSessions, Option.toList_some, List.map_append, h2']
        rw [hstep, List.range'_concat, List.map_append, harg]
        simp
  · have hs' : c.is_session_start = false := by simpa using hs
    by_cases hsE : c.is_session_end = true
    · cases hcur : st.current with
      | none =>
        rw [step_end_orphan_idle st c hs' hsE hcur]
        have h2' : st.sessions.map Session.session_id =
            (List.range' 1 (st.counter - 1)).map sessionName := by
          simpa [allSessions, hcur] using h2
        refine ⟨Nat.succ_le_succ (Nat.zero_le _), ?_, by intro cur hc; simp at hc⟩
        · have hstep : st.counter + 1 - 1 = (st.counter - 1) + 1 := by omega
          have harg : 1 + 1 * (st.counter - 1) = st.counter := by omega
          simp only [allSessions, Option.toList_none, List.append_nil, List.map_append, h2']
          rw [hstep, List.range'_concat, List.map_append, harg]
          simp
      | some cur =>
        have hend := h3 cur hcur
        have hic : cur.is_complete = false := (is_complete_false_iff cur).mpr hend
        rw [step_end_close st c cur hs' hsE hcur hic]
        have h2' : (st.sessions ++ [cur]).map Session.session_id =
            (List.range' 1 (st.counter - 1)).map sessionName := by
          simpa [allSessions, hcur] using h2
        refine ⟨h1, ?_, by intro cur' hc; simp at hc⟩
        · simp only [allSessions, Option.toList_none, List.append_nil]
          rw [List.map_append] at h2' ⊢
          simpa using h2'
    · have hsE' : c.is_session_end = false := by simpa using hsE
      cases hcur : st.current with
      | none =>
        rw [step_mid_idle st c hs' hsE' hcur]
        exact ⟨h1, h2, h3⟩
      | some cur =>
        rw [step_mid_open st c cur hs' hsE' hcur]
        have h2' : (st.sessions ++ [cur]).map Session.session_id =
            (List.range' 1 (st.counter - 1)).map sessionName := by
          simpa [allSessions, hcur] using h2
        refine ⟨h1, ?_, ?_⟩
        · simp only [allSessions, Option.toList_some]
          rw [List.map_append] at h2' ⊢
          simpa using h2'
        · intro cur' hc
          have hcc := Option.some_inj.mp hc
          rw [← hcc]
          simpa using h3 cur hcur

theorem builderInv_foldl : ∀ (commits : List Commit) (st : BuildState),
    BuilderInv st → BuilderInv (commits.foldl step st)
  | [], _, h => h
  | c :: rest, st, h => builderInv_foldl rest _ (builderInv_step st c h)

theorem step_countP_end (st : BuildState) (x c : Commit) :
    (allSessions (step st x)).countP (fun s => decide (s.end_commit = some c)) ≤
      (allSessions st).countP (fun s => decide (s.end_commit = some c)) +
        (if x = c then 1 else 0) := by
  by_cases hs : x.is_session_start = true
  · cases hcur : st.current with
    | none =>
      rw [step_start_none st x hs hcur]
      simp [allSessions, hcur, List.countP_append, List.countP_cons]
    | some cur =>
      by_cases hic : cur.is_complete = true
      · rw [step_start_closed st x cur hs hcur hic]
        simp [allSessions, hcur, List.countP_append, List.countP_cons]
        try split_ifs <;> omega
      · have hic' : cur.is_complete = false := by simpa using hic
        rw [step_start_open st x cur hs hcur ((is_complete_false_iff cur).mp hic')]
        simp [allSessions, hcur, List.countP_append, List.countP_cons]
  · have hs' : x.is_session_start = false := by simpa using hs
    by_cases hsE : x.is_session_end = true
    · cases hcur : st.current with
      | none =>
        rw [step_end_orphan_idle st x hs' hsE hcur]
        simp [allSessions, hcur, List.countP_append, List.countP_cons]
      | some cur =>
        by_cases hic : cur.is_complete = true
        · rw [step_end_orphan_closed st x cur hs' hsE hcur hic]
          simp [allSessions, hcur, List.countP_append, List.countP_cons]
          try split_ifs <;> omega
        · have hic' : cur.is_complete = false := by simpa using hic
          have hend := (is_complete_false_iff cur).mp hic'
          rw [step_end_close st x cur hs' hsE hcur hic']
          simp [allSessions, hcur, List.countP_append, List.countP_cons, hend]
    · have hsE' : x.is_session_end = false := by simpa using hsE
      cases hcur : st.current with
      | none =>
        rw [step_mid_idle st x hs' hsE' hcur]
        try split_ifs <;> omega
      | some cur =>
        rw [step_mid_open st x cur hs' hsE' hcur]
        simp [allSessions, hcur, List.countP_append, List.countP_cons]

theorem countP_end_foldl : ∀ (commits : List Commit) (st : BuildState) (c : Commit),
    (allSessions (commits.foldl step st)).countP (fun s => decide (s.end_commit = some c)) ≤
      (allSessions st).countP (fun s => decide (s.end_commit = some c)) + commits.count c
  | [], st, c => by simp
  | x :: rest, st, c => by
    have h1 := countP_end_foldl rest (step st x) c
    have h2 := step_countP_end st x c
    have hcount : (x :: rest).count c = rest.count c + (if x = c then 1 else 0) := by
      simp [List.count_cons]
    rw [List.foldl_cons, hcount]
    rcases eq_or_ne x c with rfl | hne
    · rw [if_pos rfl] at h2 ⊢
      omega
    · rw [if_neg hne] at h2 ⊢
      omega

theorem build_sessions_eq_allSessions (commits : List Commit) :
    build_sessions commits = allSessions (commits.foldl step initialState) := by
  unfold build_sessions allSessions
  cases h : (commits.foldl step initialState).current with
  | none => simp [h]
  | some cur => simp [h]

/-- C7: over every reachable state of the Session Builder (the state
after folding any classified commit stream — hence, quantifying over
all streams, after every prefix of any stream): the single open slot
holds at most one session and its occupant is Incomplete (no end commit
yet); each end commit is attached to at most one emitted session (the
number of built sessions ending in a given commit is bounded by that
commit's number of occurrences in the stream); and the session_id
values of the built sessions are exactly
`SESSION-001 .. SESSION-k` in discovery order, hence unique. -/
theorem C7_builder_invariants (commits : List Commit) :
    (∀ cur : Session,
      (commits.foldl step initialState).current = some cur → cur.end_commit = none) ∧
    (∀ c : Commit,
      (build_sessions commits).countP (fun s => decide (s.end_commit = some c)) ≤
        commits.count c) ∧
    (∃ k : ℕ, (build_sessions commits).map Session.session_id =
      (List.range' 1 k).map sessionName) ∧
    ((build_sessions commits).map Session.session_id).Nodup := by
  obtain ⟨h1, h2, h3⟩ := builderInv_foldl commits initialState builderInv_init
  refine ⟨h3, ?_, ?_, ?_⟩
  · intro c
    have hcp := countP_end_foldl commits initialState c
    rw [build_sessions_eq_allSessions]
    simpa [allSessions, initialState] using hcp
  · exact ⟨(commits.foldl step initialState).counter - 1,
      by rw [build_sessions_eq_allSessions]; exact h2⟩
  · rw [build_sessions_eq_allSessions, h2]
    exact (List.nodup_range' 1 _).map sessionName_inj

/-- Witness for C7: after one start commit the open session is
Incomplete, and at a two-commit stream the end commit closes at most
one session. -/
theorem C7_witness :
    Session.end_commit { session_id := sessionName 1, start_commit := cStartA } = none ∧
    (build_sessions [cStartA, cEnd2]).countP
        (fun s => decide (s.end_commit = some cEnd2)) ≤ [cStartA, cEnd2].count cEnd2 :=
  ⟨(C7_builder_invariants [cStartA]).1 _ rfl,
   (C7_builder_invariants [cStartA, cEnd2]).2.1 cEnd2⟩

theorem expMatchAt_some : ∀ (cs : List Char) (v : String), expMatchAt cs = some v →
    ∃ ds post : List Char, ds ≠ [] ∧ (∀ ch ∈ ds, ch.isDigit = true) ∧
      cs = 'E' :: 'X' :: 'P' :: '-' :: (ds ++ post) ∧
      v = String.mk ('E' :: 'X' :: 'P' :: '-' :: ds) := by
  intro cs v h
  rcases cs with _ | ⟨a, _ | ⟨b, _ | ⟨c, _ | ⟨d, rest⟩⟩⟩⟩ <;>
    simp only [expMatchAt] at h
  · exact absurd h (by simp)
  · exact absurd h (by simp)
  · exact absurd h (by simp)
  · exact absurd h (by simp)
  · split_ifs at h with hif hempty
    obtain ⟨rfl, rfl, rfl, rfl⟩ := hif
    refine ⟨rest.takeWhile (fun ch => ch.isDigit), rest.dropWhile (fun ch => ch.isDigit),
      ?_, ?_, ?_, ?_⟩
    · simpa [List.isEmpty_iff] using hempty
    · intro ch hch
      exact List.mem_takeWhile_imp hch
    · simp [List.takeWhile_append_dropWhile]
    · exact (Option.some_inj.mp h).symm

theorem expMatchAt_of_shape (ds post : List Char) (hne : ds ≠ [])
    (hdig : ∀ ch ∈ ds, ch.isDigit = true) :
    (expMatchAt ('E' :: 'X' :: 'P' :: '-' :: (ds ++ post))).isSome = true := by
  cases ds with
  | nil => exact absurd rfl hne
  | cons d ds' =>
    have hd : d.isDigit = true := hdig d (List.mem_cons_self _ _)
    simp only [expMatchAt, List.cons_append]
    rw [if_pos (by simp), List.takeWhile_cons, if_pos hd]
    simp

theorem searchExp_isSome_iff : ∀ cs : List Char,
    (searchExp cs).isSome = true ↔
      ∃ pre ds post : List Char, ds ≠ [] ∧ (∀ ch ∈ ds, ch.isDigit = true) ∧
        cs = pre ++ ('E' :: 'X' :: 'P' :: '-' :: (ds ++ post))
  | [] => by
    refine ⟨fun h => by simp [searchExp] at h, ?_⟩
    rintro ⟨pre, ds, post, hne, hdig, h⟩
    exact absurd h (by simp)
  | c :: rest => by
    constructor
    · intro h
      rw [searchExp] at h
      cases hm : expMatchAt (c :: rest) with
      | some v =>
        obtain ⟨ds, post, hne, hdig, hshape, _⟩ := expMatchAt_some _ v hm
        exact ⟨[], ds, post, hne, hdig, by simpa using hshape⟩
      | none =>
        rw [hm] at h
        obtain ⟨pre, ds, post, hne, hdig, hshape⟩ := (searchExp_isSome_iff rest).mp h
        exact ⟨c :: pre, ds, post, hne, hdig, by simp [hshape]⟩
    · rintro ⟨pre, ds, post, hne, hdig, hshape⟩
      cases pre with
      | nil =>
        simp only [List.nil_append] at hshape
        rw [hshape, searchExp]
        have hsome := expMatchAt_of_shape ds post hne hdig
        cases hm : expMatchAt ('E' :: 'X' :: 'P' :: '-' :: (ds ++ post)) with
        | none => rw [hm] at hsome; simp at hsome
        | some v => rfl
      | cons p pre' =>
        simp only [List.cons_append, List.cons.injEq] at hshape
        obtain ⟨rfl, h2⟩ := hshape
        rw [searchExp]
        cases hm : expMatchAt (c :: rest) with
        | some v => rfl
        | none =>
          exact (searchExp_isSome_iff rest).mpr ⟨pre', ds, post, hne, hdig, h2⟩

theorem searchExp_some_shape : ∀ (cs : List Char) (v : String), searchExp cs = some v →
    ∃ tl : List Char, v = String.mk ('E' :: 'X' :: 'P' :: '-' :: tl)
  | [], v, h => by simp [searchExp] at h
  | c :: rest, v, h => by
    rw [searchExp] at h
    cases hm : expMatchAt (c :: rest) with
    | some w =>
      rw [hm] at h
      obtain ⟨ds, post, _, _, _, hv⟩ := expMatchAt_some _ w hm
      exact ⟨ds, by rw [← Option.some_inj.mp h, hv]⟩
    | none =>
      rw [hm] at h
      exact searchExp_some_shape rest v h

theorem searchExp_first : ∀ (cs : List Char) (i : ℕ),
    (expMatchAt (cs.drop i)).isSome = true →
    (∀ j, j < i → expMatchAt (cs.drop j) = none) →
    searchExp cs = expMatchAt (cs.drop i)
  | cs, 0, hm, _ => by
    simp only [List.drop_zero] at hm ⊢
    cases cs with
    | nil => simp [expMatchAt] at hm
    | cons c rest =>
      rw [searchExp]
      cases h : expMatchAt (c :: rest) with
      | some v => rfl
      | none => rw [h] at hm; simp at hm
  | cs, i + 1, hm, hnone => by
    cases cs with
    | nil =>
      simp only [List.drop_nil] at hm
      simp [expMatchAt] at hm
    | cons c rest =>
      have h0 : expMatchAt ((c :: rest).drop 0) = none := hnone 0 (Nat.succ_pos i)
      simp only [List.drop_zero] at h0
      rw [searchExp, h0]
      simp only [List.drop_succ_cons] at hm ⊢
      exact searchExp_first rest i hm (fun j hj => by
        have hh := hnone (j + 1) (Nat.succ_lt_succ hj)
        simpa [List.drop_succ_cons] using hh)

/-- C10: hypothesis-identifier extraction is case-sensitive, unlike tag
classification: it returns the match at the first position where
uppercase `EXP-` followed by at least one digit occurs, it returns
"UNKNOWN" exactly for the messages containing no such uppercase
occurrence, and in particular a message containing only the lowercase
form `exp-001` yields "UNKNOWN". -/
theorem C10_hypothesis_id :
    (∀ s : Session, s.hypothesis_id = "UNKNOWN" ↔ ¬ hasExpRef s.start_commit.message) ∧
    (∀ (cs : List Char) (i : ℕ),
      (expMatchAt (cs.drop i)).isSome = true →
      (∀ j, j < i → expMatchAt (cs.drop j) = none) →
      searchExp cs = expMatchAt (cs.drop i)) ∧
    Session.hypothesis_id
      { session_id := "SESSION-001",
        start_commit := { hash := "9999ffff", timestamp := 0,
                          message := "exp: retry exp-001 in lowercase",
                          tag := "exp:" } } = "UNKNOWN" := by
  refine ⟨?_, searchExp_first, by decide⟩
  intro s
  unfold Session.hypothesis_id hasExpRef
  cases h : searchExp s.start_commit.message.data with
  | none =>
    simp only [h, Option.getD_none]
    constructor
    · rintro - ⟨pre, ds, post, hne, hdig, hshape⟩
      have hsome : (searchExp s.start_commit.message.data).isSome = true :=
        (searchExp_isSome_iff _).mpr ⟨pre, ds, post, hne, hdig, hshape⟩
      rw [h] at hsome
      simp at hsome
    · intro _
      trivial
  | some v =>
    simp only [h, Option.getD_some]
    obtain ⟨tl, rfl⟩ := searchExp_some_shape _ v h
    constructor
    · intro hv
      have hd := congrArg String.data hv
      rw [show ("UNKNOWN" : String).data = ['U', 'N', 'K', 'N', 'O', 'W', 'N'] from rfl] at hd
      simp at hd
    · intro hnot
      exfalso
      apply hnot
      have hsome : (searchExp s.start_commit.message.data).isSome = true := by
        rw [h]; rfl
      exact (searchExp_isSome_iff _).mp hsome

/-- Witness for C10: extraction on a start message with no uppercase
match, and the first-match property at a concrete offset. -/
theorem C10_witness :
    (Session.hypothesis_id { session_id := "SESSION-001", start_commit := cStartB } = "UNKNOWN"
      ↔ ¬ hasExpRef cStartB.message) ∧
    searchExp "zzEXP-77".data = expMatchAt ("zzEXP-77".data.drop 2) :=
  ⟨C10_hypothesis_id.1 _,
   C10_hypothesis_id.2.1 "zzEXP-77".data 2 (by decide)
     (by intro j hj; interval_cases j <;> rfl)⟩

end SredLogger
